import Mathlib

/-!
Verification development for the aquarium packer builder plugin
(`builder/aquarium` in the adobe/packer-plugin-aquarium repository).

The Go workflow code is shallowly embedded: each step's `Run`/`Cleanup`
function becomes a pure Lean function over an explicit workflow-state
record (`BagState`, mirroring the multistep `StateBag`), with every
remote interaction (API responses, poll ticks) supplied by an explicit
environment (`Env`) of oracles.  Polling loops driven by a context
deadline plus a fixed-interval ticker are embedded as structural
recursion over the finite list of tick outcomes observed before the
deadline; the empty list is the tick on which the deadline fires.
-/

namespace Aquarium

/-- Go `map[string]any` lookup, specialised to string values
(model of `m[k]` on an association-list representation). -/
def mlookup (k : String) : List (String × String) → Option String
  | [] => none
  | (k', v) :: rest => if k = k' then some v else mlookup k rest

/-- Go map insertion `m[k] = v`: overwrites an existing binding for `k`,
otherwise appends the new binding. -/
def mapInsert (k v : String) : List (String × String) → List (String × String)
  | [] => [(k, v)]
  | (k', v') :: rest =>
    if k' = k then (k, v) :: rest else (k', v') :: mapInsert k v rest

theorem mlookup_mapInsert (k k' v : String) (m : List (String × String)) :
    mlookup k' (mapInsert k v m) = if k' = k then some v else mlookup k' m := by
  induction m with
  | nil => simp [mapInsert, mlookup]
  | cons hd tl ih =>
    obtain ⟨hk, hv⟩ := hd
    by_cases h1 : hk = k
    · subst h1
      by_cases h2 : k' = hk <;> simp [mapInsert, mlookup, h2]
    · by_cases h2 : k' = hk
      · subst h2
        simp [mapInsert, mlookup, h1, Ne.symm h1]
      · simp [mapInsert, mlookup, h1, h2, ih]

/-- Digit character for a value `< 10` (model of Go's integer formatting). -/
def digitChar (n : Nat) : Char :=
  Char.ofNat ('0'.toNat + n)

/-- Decimal digits of a natural number, most significant first; `fuel`
bounds the recursion and any `fuel > 0` with `fuel > log10 n` is enough. -/
def natDigitsAux : Nat → Nat → List Char
  | 0, _ => []
  | fuel + 1, n =>
    if n < 10 then [digitChar n]
    else natDigitsAux fuel (n / 10) ++ [digitChar (n % 10)]

/-- Model of Go `strconv.Itoa` on naturals. -/
def natToString (n : Nat) : String :=
  ⟨natDigitsAux (n + 1) n⟩

/-- Model of Go `strconv.Itoa` (64-bit `int` values, overflow out of scope). -/
def intToString : Int → String
  | .ofNat n => natToString n
  | .negSucc n => "-" ++ natToString (n + 1)

theorem natDigitsAux_ne_nil (fuel n : Nat) (h : 0 < fuel) :
    natDigitsAux fuel n ≠ [] := by
  cases fuel with
  | zero => omega
  | succ f =>
    unfold natDigitsAux
    by_cases hn : n < 10 <;> simp [hn]

theorem natToString_ne_empty (n : Nat) : natToString n ≠ "" := by
  unfold natToString
  intro h
  have := natDigitsAux_ne_nil (n + 1) n (by omega)
  exact this (by simpa [String.ext_iff] using h)

theorem intToString_ne_empty (i : Int) : intToString i ≠ "" := by
  cases i with
  | ofNat n => exact natToString_ne_empty n
  | negSucc n =>
    unfold intToString
    intro h
    rw [String.ext_iff] at h
    simp [String.data, String.append] at h

/-- Model of Go `strconv.Atoi`: optional sign, then decimal digits;
empty digit strings, non-digit characters, and values outside the 64-bit
signed range all yield an error (`none`). -/
def goAtoi (s : String) : Option Int :=
  match s.data with
  | [] => none
  | c :: rest =>
    let signDigits : Int × List Char :=
      if c = '+' then (1, rest)
      else if c = '-' then (-1, rest)
      else (1, c :: rest)
    let sign := signDigits.1
    let digits := signDigits.2
    if digits = [] then none
    else if digits.all (fun d => d.isDigit) then
      let n : Nat := digits.foldl (fun acc d => acc * 10 + (d.toNat - '0'.toNat)) 0
      let v : Int := sign * n
      if v < -(2 ^ 63) ∨ 2 ^ 63 - 1 < v then none else some v
    else none

/-- Model of Go `strings.Split` with a single-character separator:
splits at every occurrence of `sep`, keeping empty fields; the empty
input yields one empty field. -/
def splitOnChar (sep : Char) : List Char → List (List Char)
  | [] => [[]]
  | c :: rest =>
    let r := splitOnChar sep rest
    if c = sep then [] :: r
    else
      match r with
      | [] => [[c]]
      | g :: gs => (c :: g) :: gs

/-- `strings.Split(addr, ":")`. -/
def goSplitColon (s : String) : List String :=
  (splitOnChar ':' s.data).map (fun l => ⟨l⟩)

/-- `ParseSSHAddress` (api_client.go): splits `addr` on `":"`, requires
exactly two fields, and parses the second as an integer port. -/
def ParseSSHAddress (addr : String) : Except String (String × Int) :=
  let parts := goSplitColon addr
  if h : parts.length = 2 then
    match goAtoi (parts.get ⟨1, by omega⟩) with
    | none => .error ("invalid port in SSH address: " ++ parts.get ⟨1, by omega⟩)
    | some port => .ok (parts.get ⟨0, by omega⟩, port)
  else
    .error ("invalid SSH address format: " ++ addr)

/-- `aquariumv2.ApplicationState_Status`: the allocation-status
enumeration observed by the workflow. -/
inductive Status where
  | UNSPECIFIED
  | NEW
  | ELECTED
  | ALLOCATED
  | ERROR
  | DEALLOCATE
  | DEALLOCATED
  | RECALLED
deriving DecidableEq, Repr

/-- `Status.String()`: the name of the enum value, as interpolated into
log lines and error messages by `%s`. -/
def statusStr : Status → String
  | .UNSPECIFIED => "UNSPECIFIED"
  | .NEW => "NEW"
  | .ELECTED => "ELECTED"
  | .ALLOCATED => "ALLOCATED"
  | .ERROR => "ERROR"
  | .DEALLOCATE => "DEALLOCATE"
  | .DEALLOCATED => "DEALLOCATED"
  | .RECALLED => "RECALLED"

/-- `aquariumv2.ApplicationState`: status plus description. -/
structure AppState where
  status : Status
  description : String
deriving DecidableEq, Repr

/-- `aquariumv2.ApplicationResource`: the concrete remote instance. -/
structure Resource where
  uid : String
  ipAddr : String
deriving DecidableEq, Repr

/-- `aquariumv2.Application`: the created allocation record. -/
structure Application where
  uid : String
deriving DecidableEq, Repr

/-- A label definition (`LabelDefinition`); only its presence matters to
the workflow, which validates `len(label.Definitions) > 0`. -/
structure LabelDef where
  driver : String
deriving DecidableEq, Repr

/-- `Label`: a named, versioned resource template. -/
structure Label where
  uid : String
  name : String
  version : Int
  definitions : List LabelDef
deriving DecidableEq, Repr

/-- `GateProxySSHAccess` / `ApplicationResourceAccess`: remote-access
credentials returned for a resource. -/
structure Access where
  address : String
  username : String
  password : String
  key : String
deriving DecidableEq, Repr

/-- The builder configuration fields the embedded steps read
(`Config` in builder.go, after `Prepare` applied defaults). -/
structure Config where
  labelName : String
  labelVersion : String
  connectionRetries : Nat
  applicationMetadata : List (String × String)
  sshHostDefault : String
  sshPortDefault : Int
deriving DecidableEq, Repr

/-- `multistep.StepAction`: a step either continues the sequence or
halts forward progress. -/
inductive StepAction where
  | actionContinue
  | actionHalt
deriving DecidableEq, Repr

/-- Outcome of `client.GetApplicationResource` on an ALLOCATED tick:
transport error, not-yet-present (`nil`), or the resource. -/
inductive ResourceFetch where
  | fetchErr (msg : String)
  | fetchNone
  | fetchSome (r : Resource)
deriving DecidableEq, Repr

/-- One ticker firing of the Wait-For-Allocation loop: the result of
`client.GetApplicationState`, paired (when it succeeds) with the result
the subsequent resource fetch would give. -/
inductive PollEvent where
  | stateErr (msg : String)
  | stateOk (st : AppState) (rf : ResourceFetch)
deriving DecidableEq, Repr

/-- The `multistep.StateBag` slots (plus the `deallocCalls` effect log,
which records every `DeallocateApplication` request issued, and
`sentMetadata`, which records the metadata submitted with the created
Application). -/
structure BagState where
  hasApiClient : Bool := false
  selectedLabel : Option Label := none
  application : Option Application := none
  sentMetadata : Option (List (String × String)) := none
  resource : Option Resource := none
  sshHost : Option String := none
  sshPort : Option Int := none
  imageResults : Option (List (String × String)) := none
  generatedData : List (String × String) := []
  error : Option String := none
  deallocCalls : List String := []
deriving DecidableEq, Repr

/-- The state bag as `Builder.Run` initialises it
(`generated_data` set to an empty map, everything else absent). -/
def initialBag : BagState := {}

/-- Ticker interval of the Wait-For-Allocation loop:
`time.NewTicker(5 * time.Second)`. -/
def allocationTickerIntervalSeconds : Nat := 5

/-- The polling loop of `StepWaitForAllocation.Run`
(step_wait_for_allocation.go lines 50-117).  Events are the tick
outcomes observed before the allocation deadline; the empty list is the
tick on which `timeoutCtx.Done()` fires. -/
def waitLoop : List PollEvent → BagState → BagState × StepAction
  | [], st =>
    ({ st with error := some "allocation timeout" }, .actionHalt)
  | .stateErr m :: _, st =>
    ({ st with error := some ("failed to get application state: " ++ m) }, .actionHalt)
  | .stateOk s rf :: rest, st =>
    match s.status with
    | .ALLOCATED =>
      match rf with
      | .fetchErr m =>
        ({ st with error := some ("failed to get application resource: " ++ m) },
         .actionHalt)
      | .fetchNone => waitLoop rest st
      | .fetchSome r =>
        ({ st with resource := some r,
                   generatedData := mapInsert "ResourceUID" r.uid st.generatedData },
         .actionContinue)
    | .ERROR | .DEALLOCATED | .DEALLOCATE =>
      ({ st with error := some ("application failed: " ++ statusStr s.status) },
       .actionHalt)
    | .NEW | .ELECTED => waitLoop rest st
    | _ => waitLoop rest st

/-- One ticker firing of the legacy Setup-SSH availability loop
(`StepSetupSSH.Run`, the polling variant): the outcome of
`client.GetApplicationResourceAccess`. -/
inductive AccessEvent where
  | accessErr (msg : String)
  | accessNotReady
  | accessReady (a : Access)
deriving DecidableEq, Repr

/-- One ticker firing of the Create-Image loop: the outcome of
`client.GetApplicationTask` (its result payload as a key-value map). -/
inductive ImageEvent where
  | taskErr (msg : String)
  | taskOk (result : List (String × String))
deriving DecidableEq, Repr

/-- One ticker firing of the cleanup deallocation-wait loop: the outcome
of `client.GetApplicationState` there (status as the string the legacy
client returns). -/
inductive CleanupEvent where
  | cleanErr (msg : String)
  | cleanState (status : String)
deriving DecidableEq, Repr

/-- Outcome of an external collaborator step.
Modelled from the spec: the remote-shell connect and provisioning-hook
steps (§2, §4.8) are external packer-sdk collaborators whose code is not
part of this repository; they may continue, or halt with or without
recording an error. -/
inductive ExtOutcome where
  | extContinue
  | extHalt (err : Option String)
deriving DecidableEq, Repr

/-- The oracle environment: every remote response a workflow run can
observe, fixed up front.  Each polling loop's list holds the tick
outcomes before its deadline fires. -/
structure Env where
  connectResult : Except String Unit
  labelsResult : Except String (List Label)
  createAppResult : Except String Application
  pollEvents : List PollEvent
  accessResult : Except String Access
  connectSSHOutcome : ExtOutcome
  provisionOutcome : ExtOutcome
  createTaskResult : Except String String
  imageEvents : List ImageEvent
  deallocResult : Except String Unit
  cleanupEvents : List CleanupEvent
  buildTime : String
deriving Repr

/-- `StepConnectAPI.Run`: probe the API; on success store the client. -/
def stepConnectRun (env : Env) (st : BagState) : BagState × StepAction :=
  match env.connectResult with
  | .error m => ({ st with error := some m }, .actionHalt)
  | .ok _ => ({ st with hasApiClient := true }, .actionContinue)

/-- The latest-version selection loop of `StepFindLabel.Run`
(step_find_label.go lines 66-72): `maxVersion := -1`, replace the
candidate whenever `label.Version > maxVersion`. -/
def selectMax : List Label → Int × Option Label → Int × Option Label
  | [], best => best
  | l :: rest, best =>
    if best.1 < l.version then selectMax rest (l.version, some l)
    else selectMax rest best

/-- The label selected when no version was requested. -/
def findMaxLabel (labels : List Label) : Option Label :=
  (selectMax labels (-1, none)).2

/-- Common tail of `StepFindLabel.Run` (lines 96-117): validate the
selected label has at least one definition, then store it. -/
def finishLabel (sel : Label) (st : BagState) : BagState × StepAction :=
  if sel.definitions.length = 0 then
    ({ st with error := some "label has no definitions" }, .actionHalt)
  else
    ({ st with selectedLabel := some sel }, .actionContinue)

/-- `StepFindLabel.Run` (step_find_label.go lines 34-118). -/
def stepFindLabelRun (cfg : Config) (env : Env) (st : BagState) :
    BagState × StepAction :=
  match env.labelsResult with
  | .error m =>
    ({ st with error := some ("label retrieval failed: " ++ m) }, .actionHalt)
  | .ok labels =>
    if labels.length = 0 then
      ({ st with error := some ("label not found: " ++ cfg.labelName) }, .actionHalt)
    else if cfg.labelVersion = "" then
      match findMaxLabel labels with
      | none => ({ st with error := some "no suitable label found" }, .actionHalt)
      | some sel => finishLabel sel st
    else
      match goAtoi cfg.labelVersion with
      | none =>
        ({ st with error := some "invalid version format" }, .actionHalt)
      | some v =>
        match labels.find? (fun l => l.version == v) with
        | none =>
          ({ st with error := some "label version not found" }, .actionHalt)
        | some sel => finishLabel sel st

/-- The metadata map submitted by `StepCreateApplication.Run`
(lines 43-56): the user-supplied `application_metadata` entries, then the
three packer-injected keys (`PACKER_BUILD_TIME` carries
`time.Now().Format(time.RFC3339)`, supplied here as the environment's
`buildTime`). -/
def buildMetadata (userMeta : List (String × String)) (buildTime : String) :
    List (String × String) :=
  let m := userMeta.foldl (fun m kv => mapInsert kv.1 kv.2 m) []
  let m := mapInsert "PACKER_BUILD" "true" m
  let m := mapInsert "PACKER_BUILDER" "aquarium" m
  mapInsert "PACKER_BUILD_TIME" buildTime m

/-- `StepCreateApplication.Run`: build and submit the allocation
request; on success store the Application and publish `ApplicationUID`. -/
def stepCreateApplicationRun (cfg : Config) (env : Env) (st : BagState) :
    BagState × StepAction :=
  let md := buildMetadata cfg.applicationMetadata env.buildTime
  match env.createAppResult with
  | .error m =>
    ({ st with sentMetadata := some md,
               error := some ("application creation failed: " ++ m) }, .actionHalt)
  | .ok app =>
    ({ st with sentMetadata := some md,
               application := some app,
               generatedData := mapInsert "ApplicationUID" app.uid st.generatedData },
     .actionContinue)

/-- `StepSetupSSH.Run` (step_setup_ssh.go, the current non-polling
variant): fetch access credentials, parse the address, fall back to the
communicator defaults when parsing fails, publish `SSHHost`/`SSHPort`. -/
def stepSetupSSHRun (cfg : Config) (env : Env) (st : BagState) :
    BagState × StepAction :=
  match env.accessResult with
  | .error m =>
    ({ st with error := some ("failed to get SSH access: " ++ m) }, .actionHalt)
  | .ok access =>
    let hp : String × Int :=
      match ParseSSHAddress access.address with
      | .error _ => (cfg.sshHostDefault, cfg.sshPortDefault)
      | .ok hp => hp
    ({ st with sshHost := some hp.1,
               sshPort := some hp.2,
               generatedData :=
                 mapInsert "SSHPort" (intToString hp.2)
                   (mapInsert "SSHHost" hp.1 st.generatedData) },
     .actionContinue)

/-- Ticker interval of the legacy Setup-SSH availability loop:
`time.NewTicker(10 * time.Second)`. -/
def sshTickerIntervalSeconds : Nat := 10

/-- The availability polling loop of the legacy `StepSetupSSH.Run`
variant: on each tick the retry counter is incremented and checked
against `maxRetries` before the access request is made; a `nil` access
continues the loop, an API error halts immediately. -/
def sshLoop (cfg : Config) (maxRetries : Nat) :
    List AccessEvent → Nat → BagState → BagState × StepAction
  | [], _, st =>
    ({ st with error := some "SSH access availability timeout" }, .actionHalt)
  | e :: rest, retryCount, st =>
    if retryCount + 1 > maxRetries then
      ({ st with error := some "SSH access availability retry limit exceeded" },
       .actionHalt)
    else
      match e with
      | .accessErr m =>
        ({ st with error := some ("failed to get SSH access credentials: " ++ m) },
         .actionHalt)
      | .accessNotReady => sshLoop cfg maxRetries rest (retryCount + 1) st
      | .accessReady a =>
        let hp : String × Int :=
          match ParseSSHAddress a.address with
          | .error _ => (cfg.sshHostDefault, cfg.sshPortDefault)
          | .ok hp => hp
        ({ st with sshHost := some hp.1,
                   sshPort := some hp.2,
                   generatedData :=
                     mapInsert "SSHPort" (intToString hp.2)
                       (mapInsert "SSHHost" hp.1 st.generatedData) },
         .actionContinue)

/-- The result-polling loop of `StepCreateImage.Run` (lines 72-127):
wait until the task's result payload is non-empty, then classify it by
its `"status"` key. -/
def imageLoop : List ImageEvent → BagState → BagState × StepAction
  | [], st =>
    ({ st with error := some "image creation timeout" }, .actionHalt)
  | .taskErr m :: _, st =>
    ({ st with error := some ("failed to get task status: " ++ m) }, .actionHalt)
  | .taskOk result :: rest, st =>
    if 0 < result.length then
      match mlookup "status" result with
      | some s =>
        if s = "success" ∨ s = "completed" then
          ({ st with imageResults := some result }, .actionContinue)
        else if s = "failed" ∨ s = "error" then
          ({ st with error := some "image creation failed" }, .actionHalt)
        else
          ({ st with imageResults := some result }, .actionContinue)
      | none =>
        ({ st with imageResults := some result }, .actionContinue)
    else
      imageLoop rest st

/-- `StepCreateImage.Run`: create the capture task, then poll. -/
def stepCreateImageRun (env : Env) (st : BagState) : BagState × StepAction :=
  match env.createTaskResult with
  | .error m =>
    ({ st with error := some ("image task creation failed: " ++ m) }, .actionHalt)
  | .ok _ => imageLoop env.imageEvents st

/-- The best-effort deallocation-wait loop of `StepCleanup.Cleanup`
(step_cleanup.go lines 81-109): every exit path simply returns the state
unchanged. -/
def cleanupWait : List CleanupEvent → BagState → BagState
  | [], st => st
  | .cleanErr _ :: _, st => st
  | .cleanState s :: rest, st =>
    if s = "DEALLOCATED" ∨ s = "RECALLED" then st
    else if s = "ERROR" then st
    else cleanupWait rest st

/-- `StepCleanup.Cleanup` (step_cleanup.go lines 39-110): skip when no
API client or no application is in the state; otherwise issue exactly
one deallocation request (recorded in `deallocCalls`), log any error it
returns, and wait (best-effort) for deallocation to finish. -/
def stepCleanupCleanup (env : Env) (st : BagState) : BagState :=
  if st.hasApiClient = false then st
  else
    match st.application with
    | none => st
    | some app =>
      let st1 := { st with deallocCalls := st.deallocCalls ++ [app.uid] }
      match env.deallocResult with
      | .error _ => st1
      | .ok _ => cleanupWait env.cleanupEvents st1

/-- `StepCleanup.Run`: a no-op that always continues. -/
def stepCleanupRun (st : BagState) : BagState × StepAction :=
  (st, .actionContinue)

/-- An external collaborator step (remote-shell connect, provisioning
hook), driven by its oracle outcome. -/
def extStepRun (o : ExtOutcome) (st : BagState) : BagState × StepAction :=
  match o with
  | .extContinue => (st, .actionContinue)
  | .extHalt none => (st, .actionHalt)
  | .extHalt (some m) => ({ st with error := some m }, .actionHalt)

/-- A step of the sequence: an execute action and a cleanup action.
Modelled from the spec: the `multistep.Step` interface and the runner
contract of §4.8 (the runner itself lives in the external packer sdk). -/
structure StepDef where
  run : BagState → BagState × StepAction
  cleanup : BagState → BagState

/-- Forward phase of the runner: execute steps in order until the first
halt, returning the resulting state and the steps that executed, in
execution order.  Modelled from the spec (§4.8 execution contract). -/
def runForward : List StepDef → BagState → BagState × List StepDef
  | [], st => (st, [])
  | s :: rest, st =>
    match s.run st with
    | (st', .actionHalt) => (st', [s])
    | (st', .actionContinue) =>
      let r := runForward rest st'
      (r.1, s :: r.2)

/-- Cleanup phase of the runner: run the cleanup action of every
executed step, in reverse order of execution.  Modelled from the spec
(§4.8). -/
def runCleanup (executed : List StepDef) (st : BagState) : BagState :=
  executed.reverse.foldl (fun st s => s.cleanup st) st

/-- The runner: forward phase, then cleanup phase.  Modelled from the
spec (§4.8). -/
def runnerRun (steps : List StepDef) (st : BagState) : BagState :=
  let r := runForward steps st
  runCleanup r.2 r.1

/-- The step sequence after the Cleanup step: the aquarium steps, the
two external collaborator steps, and Create-Image (builder.go lines
146-178). -/
def builderTail (cfg : Config) (env : Env) : List StepDef :=
  [ ⟨stepConnectRun env, fun st => st⟩,
    ⟨stepFindLabelRun cfg env, fun st => st⟩,
    ⟨stepCreateApplicationRun cfg env, fun st => st⟩,
    ⟨fun st => waitLoop env.pollEvents st, fun st => st⟩,
    ⟨stepSetupSSHRun cfg env, fun st => st⟩,
    ⟨extStepRun env.connectSSHOutcome, fun st => st⟩,
    ⟨extStepRun env.provisionOutcome, fun st => st⟩,
    ⟨stepCreateImageRun env, fun st => st⟩ ]

/-- The step sequence assembled by `Builder.Run` (builder.go lines
140-178): Cleanup first (so its cleanup hook runs last), then the rest
of the sequence. -/
def builderSteps (cfg : Config) (env : Env) : List StepDef :=
  ⟨stepCleanupRun, stepCleanupCleanup env⟩ :: builderTail cfg env

/-- The final workflow state of `Builder.Run`: run the sequence from the
initial bag. -/
def builderFinalState (cfg : Config) (env : Env) : BagState :=
  runnerRun (builderSteps cfg env) initialBag

/-- `Builder.Run`'s result (builder.go lines 193-206): the recorded
error if any step stored one, otherwise an artifact carrying the
generated-data map. -/
def builderRun (cfg : Config) (env : Env) :
    Except String (List (String × String)) :=
  let fin := builderFinalState cfg env
  match fin.error with
  | some e => .error e
  | none => .ok fin.generatedData

theorem waitLoop_cases (evs : List PollEvent) (st : BagState) :
    (∃ m, waitLoop evs st = ({ st with error := some m }, .actionHalt)) ∨
    (∃ r, waitLoop evs st =
      ({ st with resource := some r,
                 generatedData := mapInsert "ResourceUID" r.uid st.generatedData },
       .actionContinue)) := by
  induction evs with
  | nil => exact .inl ⟨_, rfl⟩
  | cons e rest ih =>
    cases e with
    | stateErr m => exact .inl ⟨_, rfl⟩
    | stateOk s rf =>
      obtain ⟨status, desc⟩ := s
      cases status with
      | ALLOCATED =>
        cases rf with
        | fetchErr m => exact .inl ⟨_, rfl⟩
        | fetchNone => simpa [waitLoop] using ih
        | fetchSome r => exact .inr ⟨r, rfl⟩
      | ERROR => exact .inl ⟨_, rfl⟩
      | DEALLOCATED => exact .inl ⟨_, rfl⟩
      | DEALLOCATE => exact .inl ⟨_, rfl⟩
      | NEW => simpa [waitLoop] using ih
      | ELECTED => simpa [waitLoop] using ih
      | RECALLED => simpa [waitLoop] using ih
      | UNSPECIFIED => simpa [waitLoop] using ih

theorem imageLoop_cases (evs : List ImageEvent) (st : BagState) :
    (∃ m, imageLoop evs st = ({ st with error := some m }, .actionHalt)) ∨
    (∃ res, imageLoop evs st =
      ({ st with imageResults := some res }, .actionContinue)) := by
  induction evs with
  | nil => exact .inl ⟨_, rfl⟩
  | cons e rest ih =>
    cases e with
    | taskErr m => exact .inl ⟨_, rfl⟩
    | taskOk result =>
      by_cases hr : 0 < result.length
      · rcases hs : mlookup "status" result with _ | s
        · exact .inr ⟨result, by simp [imageLoop, hr, hs]⟩
        · by_cases h1 : s = "success" ∨ s = "completed"
          · exact .inr ⟨result, by simp [imageLoop, hr, hs, h1]⟩
          · by_cases h2 : s = "failed" ∨ s = "error"
            · exact .inl ⟨"image creation failed", by simp [imageLoop, hr, hs, h1, h2]⟩
            · exact .inr ⟨result, by simp [imageLoop, hr, hs, h1, h2]⟩
      · simpa [imageLoop, hr] using ih

theorem cleanupWait_eq (evs : List CleanupEvent) (st : BagState) :
    cleanupWait evs st = st := by
  induction evs with
  | nil => rfl
  | cons e rest ih =>
    cases e with
    | cleanErr m => rfl
    | cleanState s => by_cases h1 : s = "DEALLOCATED" ∨ s = "RECALLED" <;>
        by_cases h2 : s = "ERROR" <;> simp [cleanupWait, h1, h2, ih]

theorem stepCleanupCleanup_skip (env : Env) (st : BagState)
    (h : st.hasApiClient = false ∨ st.application = none) :
    stepCleanupCleanup env st = st := by
  unfold stepCleanupCleanup
  rcases h with h | h
  · simp [h]
  · by_cases hc : st.hasApiClient = false <;> simp [hc, h]

theorem stepCleanupCleanup_dealloc (env : Env) (st : BagState) (app : Application)
    (hc : st.hasApiClient = true) (ha : st.application = some app) :
    stepCleanupCleanup env st
      = { st with deallocCalls := st.deallocCalls ++ [app.uid] } := by
  unfold stepCleanupCleanup
  rcases hd : env.deallocResult with m | u <;> simp [hc, ha, hd, cleanupWait_eq]

theorem stepCleanupCleanup_frame (env : Env) (st : BagState) :
    ∃ calls, stepCleanupCleanup env st = { st with deallocCalls := calls } := by
  by_cases hc : st.hasApiClient = false
  · exact ⟨st.deallocCalls, by rw [stepCleanupCleanup_skip env st (.inl hc)]⟩
  · rcases Option.eq_none_or_eq_some st.application with ha | ⟨app, ha⟩
    · exact ⟨st.deallocCalls, by rw [stepCleanupCleanup_skip env st (.inr ha)]⟩
    · exact ⟨st.deallocCalls ++ [app.uid],
        stepCleanupCleanup_dealloc env st app (by simpa using hc) ha⟩

theorem stepConnectRun_cases (env : Env) (st : BagState) :
    (∃ m, stepConnectRun env st = ({ st with error := some m }, .actionHalt)) ∨
    stepConnectRun env st = ({ st with hasApiClient := true }, .actionContinue) := by
  unfold stepConnectRun
  rcases h : env.connectResult with m | u <;> simp [h]

theorem stepFindLabelRun_cases (cfg : Config) (env : Env) (st : BagState) :
    (∃ m, stepFindLabelRun cfg env st = ({ st with error := some m }, .actionHalt)) ∨
    (∃ sel, stepFindLabelRun cfg env st
      = ({ st with selectedLabel := some sel }, .actionContinue)) := by
  unfold stepFindLabelRun finishLabel
  rcases h : env.labelsResult with m | labels
  · exact .inl ⟨_, rfl⟩
  · dsimp only
    repeat' split
    all_goals first
      | exact .inl ⟨_, rfl⟩
      | exact .inr ⟨_, rfl⟩

theorem stepCreateApplicationRun_cases (cfg : Config) (env : Env) (st : BagState) :
    (∃ m, stepCreateApplicationRun cfg env st
      = ({ st with sentMetadata :=
                     some (buildMetadata cfg.applicationMetadata env.buildTime),
                   error := some m }, .actionHalt)) ∨
    (∃ app, stepCreateApplicationRun cfg env st
      = ({ st with sentMetadata :=
                     some (buildMetadata cfg.applicationMetadata env.buildTime),
                   application := some app,
                   generatedData :=
                     mapInsert "ApplicationUID" app.uid st.generatedData },
         .actionContinue)) := by
  unfold stepCreateApplicationRun
  rcases h : env.createAppResult with m | app <;> simp [h]

theorem stepSetupSSHRun_cases (cfg : Config) (env : Env) (st : BagState) :
    (∃ m, stepSetupSSHRun cfg env st = ({ st with error := some m }, .actionHalt)) ∨
    (∃ host port, stepSetupSSHRun cfg env st
      = ({ st with sshHost := some host,
                   sshPort := some port,
                   generatedData :=
                     mapInsert "SSHPort" (intToString port)
                       (mapInsert "SSHHost" host st.generatedData) },
         .actionContinue)) := by
  unfold stepSetupSSHRun
  rcases h : env.accessResult with m | access
  · simp [h]
  · rcases hp : ParseSSHAddress access.address with m | hp' <;> simp [h, hp]

theorem extStepRun_cases (o : ExtOutcome) (st : BagState) :
    extStepRun o st = (st, .actionContinue) ∨
    extStepRun o st = (st, .actionHalt) ∨
    (∃ m, extStepRun o st = ({ st with error := some m }, .actionHalt)) := by
  cases o with
  | extContinue => exact .inl rfl
  | extHalt e =>
    cases e with
    | none => exact .inr (.inl rfl)
    | some m => exact .inr (.inr ⟨m, rfl⟩)

theorem stepCreateImageRun_cases (env : Env) (st : BagState) :
    (∃ m, stepCreateImageRun env st = ({ st with error := some m }, .actionHalt)) ∨
    (∃ res, stepCreateImageRun env st
      = ({ st with imageResults := some res }, .actionContinue)) := by
  unfold stepCreateImageRun
  rcases h : env.createTaskResult with m | uid
  · exact .inl ⟨"image task creation failed: " ++ m, by simp [h]⟩
  · simpa [h] using imageLoop_cases env.imageEvents st

theorem runForward_cons (s : StepDef) (rest : List StepDef) (st : BagState) :
    runForward (s :: rest) st =
      match s.run st with
      | (st', .actionHalt) => (st', [s])
      | (st', .actionContinue) =>
        ((runForward rest st').1, s :: (runForward rest st').2) := rfl

theorem runForward_mem :
    ∀ (steps : List StepDef) (st : BagState) (s : StepDef),
      s ∈ (runForward steps st).2 → s ∈ steps := by
  intro steps
  induction steps with
  | nil => intro st s h; simp [runForward] at h
  | cons hd tl ih =>
    intro st s h
    rw [runForward_cons] at h
    rcases hr : hd.run st with ⟨st', a⟩
    rw [hr] at h
    cases a with
    | actionHalt => simp at h; simp [h]
    | actionContinue =>
      simp at h
      rcases h with h | h
      · simp [h]
      · exact List.mem_cons_of_mem _ (ih st' s h)

theorem foldl_cleanup_id (l : List StepDef) (st : BagState)
    (h : ∀ s ∈ l, ∀ x, s.cleanup x = x) :
    List.foldl (fun st s => s.cleanup st) st l = st := by
  induction l generalizing st with
  | nil => rfl
  | cons hd tl ih =>
    simp only [List.foldl_cons]
    rw [h hd (by simp)]
    exact ih st (fun s hs x => h s (by simp [hs]) x)

theorem runnerRun_cons_cleanupFirst (c : StepDef) (tail : List StepDef)
    (st : BagState)
    (hc : ∀ s, c.run s = (s, .actionContinue))
    (hid : ∀ s ∈ tail, ∀ x, s.cleanup x = x) :
    runnerRun (c :: tail) st = c.cleanup (runForward tail st).1 := by
  unfold runnerRun
  rcases hfw : runForward tail st with ⟨st', ex⟩
  have hstep : runForward (c :: tail) st = (st', c :: ex) := by
    rw [runForward_cons, hc st]
    simp [hfw]
  rw [hstep]
  dsimp only
  unfold runCleanup
  rw [List.reverse_cons, List.foldl_append]
  have hex : List.foldl (fun st s => s.cleanup st) st' ex.reverse = st' := by
    refine foldl_cleanup_id _ _ (fun s hs x => ?_)
    refine hid s ?_ x
    have : s ∈ (runForward tail st).2 := by rw [hfw]; simpa using hs
    exact runForward_mem tail st s this
  rw [hex]
  rfl

theorem runForward_preserve (P : BagState → Prop) :
    ∀ (steps : List StepDef) (st : BagState),
      (∀ s ∈ steps, ∀ x, P x → P (s.run x).1) → P st →
      P (runForward steps st).1 := by
  intro steps
  induction steps with
  | nil => intro st _ h; exact h
  | cons hd tl ih =>
    intro st hsteps hst
    rw [runForward_cons]
    rcases hr : hd.run st with ⟨st', a⟩
    have hst' : P st' := by
      have := hsteps hd (by simp) st hst
      rwa [hr] at this
    cases a with
    | actionHalt => exact hst'
    | actionContinue =>
      exact ih st' (fun s hs x hx => hsteps s (by simp [hs]) x hx) hst'

theorem builderFinalState_eq (cfg : Config) (env : Env) :
    builderFinalState cfg env
      = stepCleanupCleanup env (runForward (builderTail cfg env) initialBag).1 := by
  unfold builderFinalState builderSteps
  have h := runnerRun_cons_cleanupFirst
    ⟨stepCleanupRun, stepCleanupCleanup env⟩ (builderTail cfg env) initialBag
    (fun s => rfl) ?_
  · exact h
  · intro s hs x
    unfold builderTail at hs
    simp at hs
    rcases hs with rfl | rfl | rfl | rfl | rfl | rfl | rfl | rfl <;> rfl

/-- Claim C1 (counterexample): the claim lists RECALLED among the
terminal failure statuses of the Wait-For-Ready loop, but the switch in
`StepWaitForAllocation.Run` only lists ERROR, DEALLOCATED and DEALLOCATE
as failures; an observed RECALLED falls into the default
(unknown-status) branch and keeps the loop waiting, so a trace with a
single RECALLED poll runs on to the allocation timeout instead of
aborting with an application-failed error. -/
theorem recalled_keeps_waiting :
    (waitLoop [PollEvent.stateOk ⟨Status.RECALLED, "recalled"⟩ ResourceFetch.fetchNone]
        initialBag).1.error = some "allocation timeout" ∧
    (waitLoop [PollEvent.stateOk ⟨Status.RECALLED, "recalled"⟩ ResourceFetch.fetchNone]
        initialBag).1.error
      ≠ some ("application failed: " ++ statusStr Status.RECALLED) := by
  constructor
  · rfl
  · decide

/-- Claim C1 (amended): in the Wait-For-Ready polling loop, NEW and
ELECTED keep the loop waiting; ALLOCATED is the success path (storing
the resource and publishing ResourceUID when the resource is present);
each of ERROR, DEALLOCATED and DEALLOCATE is a terminal failure that
aborts the workflow; and RECALLED, like any other/unknown status value,
is logged and keeps the loop waiting rather than aborting. -/
theorem waitForAllocation_classification (s : Status) (d : String)
    (rf : ResourceFetch) (rest : List PollEvent) (st : BagState) :
    ((s = .NEW ∨ s = .ELECTED ∨ s = .RECALLED ∨ s = .UNSPECIFIED) →
      waitLoop (PollEvent.stateOk ⟨s, d⟩ rf :: rest) st = waitLoop rest st) ∧
    ((s = .ERROR ∨ s = .DEALLOCATED ∨ s = .DEALLOCATE) →
      waitLoop (PollEvent.stateOk ⟨s, d⟩ rf :: rest) st
        = ({ st with error := some ("application failed: " ++ statusStr s) },
           .actionHalt)) ∧
    (∀ r, s = .ALLOCATED → rf = .fetchSome r →
      waitLoop (PollEvent.stateOk ⟨s, d⟩ rf :: rest) st
        = ({ st with resource := some r,
                     generatedData := mapInsert "ResourceUID" r.uid st.generatedData },
           .actionContinue)) := by
  refine ⟨?_, ?_, ?_⟩
  · rintro (rfl | rfl | rfl | rfl) <;> rfl
  · rintro (rfl | rfl | rfl) <;> rfl
  · rintro r rfl rfl; rfl

/-- Concrete instantiation of the C1 classification theorem. -/
theorem waitForAllocation_classification_witness :
    waitLoop [PollEvent.stateOk ⟨Status.RECALLED, "r"⟩ ResourceFetch.fetchNone]
        initialBag
      = waitLoop [] initialBag ∧
    waitLoop [PollEvent.stateOk ⟨Status.ERROR, "e"⟩ ResourceFetch.fetchNone]
        initialBag
      = ({ initialBag with
             error := some ("application failed: " ++ statusStr Status.ERROR) },
         .actionHalt) ∧
    waitLoop [PollEvent.stateOk ⟨Status.ALLOCATED, "a"⟩
                (ResourceFetch.fetchSome ⟨"res1", "ip"⟩)] initialBag
      = ({ initialBag with
             resource := some ⟨"res1", "ip"⟩,
             generatedData :=
               mapInsert "ResourceUID" "res1" initialBag.generatedData },
         .actionContinue) :=
  ⟨(waitForAllocation_classification .RECALLED "r" .fetchNone [] initialBag).1
      (.inr (.inr (.inl rfl))),
   (waitForAllocation_classification .ERROR "e" .fetchNone [] initialBag).2.1
      (.inl rfl),
   (waitForAllocation_classification .ALLOCATED "a"
      (.fetchSome ⟨"res1", "ip"⟩) [] initialBag).2.2 ⟨"res1", "ip"⟩ rfl rfl⟩

/-- A poll outcome that keeps the Wait-For-Ready loop waiting without
reaching ALLOCATED: a successful status fetch whose status is one of the
intermediate states or an unrecognized value. -/
def isWaitingPoll : PollEvent → Bool
  | .stateErr _ => false
  | .stateOk s _ =>
    match s.status with
    | .NEW | .ELECTED | .RECALLED | .UNSPECIFIED => true
    | _ => false

/-- Claim C9: for every poll trace in which the observed status never
reaches ALLOCATED (every tick yields an intermediate or unknown status),
the Wait-For-Ready loop consumes every tick before the deadline and then
terminates, halting the workflow with the distinct "allocation timeout"
error rather than polling indefinitely. -/
theorem waitForAllocation_timeout (evs : List PollEvent) (st : BagState)
    (h : ∀ e ∈ evs, isWaitingPoll e = true) :
    waitLoop evs st
      = ({ st with error := some "allocation timeout" }, .actionHalt) := by
  induction evs with
  | nil => rfl
  | cons e rest ih =>
    have he := h e (by simp)
    have hrest : ∀ e ∈ rest, isWaitingPoll e = true :=
      fun e' he' => h e' (by simp [he'])
    cases e with
    | stateErr m => simp [isWaitingPoll] at he
    | stateOk s rf =>
      obtain ⟨status, d⟩ := s
      cases status <;> simp [isWaitingPoll] at he <;>
        simpa [waitLoop] using ih hrest

/-- Concrete instantiation of the C9 timeout theorem. -/
theorem waitForAllocation_timeout_witness :
    waitLoop [PollEvent.stateOk ⟨Status.NEW, "n"⟩ ResourceFetch.fetchNone,
              PollEvent.stateOk ⟨Status.ELECTED, "e"⟩ ResourceFetch.fetchNone]
        initialBag
      = ({ initialBag with error := some "allocation timeout" }, .actionHalt) :=
  waitForAllocation_timeout _ initialBag (by decide)

/-- Claim C3: the Setup-Remote-Access polling loop is bounded both by
the overall timeout (the deadline firing when the tick trace is
exhausted) and by an independent retry counter checked on each tick
before the request is made; a not-yet-available (nil) access response
continues the loop, while a transport/API error halts the step
immediately, regardless of remaining ticks; the tick interval is the
fixed 10 seconds. -/
theorem setupSSH_polling (cfg : Config) (maxRetries retryCount : Nat)
    (rest : List AccessEvent) (st : BagState) :
    (sshLoop cfg maxRetries [] retryCount st
      = ({ st with error := some "SSH access availability timeout" },
         .actionHalt)) ∧
    (∀ e, maxRetries < retryCount + 1 →
      sshLoop cfg maxRetries (e :: rest) retryCount st
        = ({ st with
               error := some "SSH access availability retry limit exceeded" },
           .actionHalt)) ∧
    (∀ m, retryCount + 1 ≤ maxRetries →
      sshLoop cfg maxRetries (.accessErr m :: rest) retryCount st
        = ({ st with
               error := some ("failed to get SSH access credentials: " ++ m) },
           .actionHalt)) ∧
    (retryCount + 1 ≤ maxRetries →
      sshLoop cfg maxRetries (.accessNotReady :: rest) retryCount st
        = sshLoop cfg maxRetries rest (retryCount + 1) st) ∧
    sshTickerIntervalSeconds = 10 := by
  refine ⟨rfl, ?_, ?_, ?_, rfl⟩
  · intro e h
    unfold sshLoop
    rw [if_pos (by omega)]
  · intro m h
    unfold sshLoop
    rw [if_neg (by omega)]
  · intro h
    conv_lhs => unfold sshLoop
    rw [if_neg (by omega)]

/-- Concrete instantiation of the C3 polling theorem. -/
theorem setupSSH_polling_witness :
    sshLoop ⟨"test", "", 60, [], "dh", 22⟩ 60 [] 0 initialBag
      = ({ initialBag with error := some "SSH access availability timeout" },
         .actionHalt) ∧
    sshLoop ⟨"test", "", 60, [], "dh", 22⟩ 60 [AccessEvent.accessErr "boom"] 0
        initialBag
      = ({ initialBag with
             error := some ("failed to get SSH access credentials: " ++ "boom") },
         .actionHalt) ∧
    sshLoop ⟨"test", "", 60, [], "dh", 22⟩ 0 [AccessEvent.accessNotReady] 0
        initialBag
      = ({ initialBag with
             error := some "SSH access availability retry limit exceeded" },
         .actionHalt) :=
  ⟨(setupSSH_polling ⟨"test", "", 60, [], "dh", 22⟩ 60 0 [] initialBag).1,
   (setupSSH_polling ⟨"test", "", 60, [], "dh", 22⟩ 60 0 [] initialBag).2.2.1
      "boom" (by omega),
   (setupSSH_polling ⟨"test", "", 60, [], "dh", 22⟩ 0 0 [] initialBag).2.1
      AccessEvent.accessNotReady (by omega)⟩

/-- Claim C4: once the capture task's result payload is non-empty, the
step classifies it by its "status" field: a success marker
("success"/"completed") terminates the step successfully; a failure
marker ("failed"/"error") aborts with an error; a present-but-
unrecognized or absent "status" also terminates the step successfully —
any non-empty result without an explicit failure marker is success. -/
theorem createImage_classification (result : List (String × String))
    (rest : List ImageEvent) (st : BagState) (hne : 0 < result.length) :
    (∀ s, mlookup "status" result = some s → (s = "success" ∨ s = "completed") →
      imageLoop (.taskOk result :: rest) st
        = ({ st with imageResults := some result }, .actionContinue)) ∧
    (∀ s, mlookup "status" result = some s → (s = "failed" ∨ s = "error") →
      imageLoop (.taskOk result :: rest) st
        = ({ st with error := some "image creation failed" }, .actionHalt)) ∧
    (∀ s, mlookup "status" result = some s →
      ¬(s = "success" ∨ s = "completed") → ¬(s = "failed" ∨ s = "error") →
      imageLoop (.taskOk result :: rest) st
        = ({ st with imageResults := some result }, .actionContinue)) ∧
    (mlookup "status" result = none →
      imageLoop (.taskOk result :: rest) st
        = ({ st with imageResults := some result }, .actionContinue)) := by
  refine ⟨?_, ?_, ?_, ?_⟩
  · intro s hs h1
    simp [imageLoop, hne, hs, h1]
  · rintro s hs (rfl | rfl) <;> simp [imageLoop, hne, hs]
  · intro s hs h1 h2
    simp [imageLoop, hne, hs, h1, h2]
  · intro hs
    simp [imageLoop, hne, hs]

/-- Concrete instantiation of the C4 classification theorem. -/
theorem createImage_classification_witness :
    imageLoop [ImageEvent.taskOk [("status", "failed")]] initialBag
      = ({ initialBag with error := some "image creation failed" },
         .actionHalt) ∧
    imageLoop [ImageEvent.taskOk [("status", "weird")]] initialBag
      = ({ initialBag with imageResults := some [("status", "weird")] },
         .actionContinue) ∧
    imageLoop [ImageEvent.taskOk [("image_path", "p")]] initialBag
      = ({ initialBag with imageResults := some [("image_path", "p")] },
         .actionContinue) :=
  ⟨(createImage_classification [("status", "failed")] [] initialBag
      (by decide)).2.1 "failed" (by decide) (.inl rfl),
   (createImage_classification [("status", "weird")] [] initialBag
      (by decide)).2.2.1 "weird" (by decide) (by decide) (by decide),
   (createImage_classification [("image_path", "p")] [] initialBag
      (by decide)).2.2.2 (by decide)⟩

theorem selectMax_le (labels : List Label) (m : Int) (ob : Option Label)
    (h : ∀ l ∈ labels, l.version ≤ m) :
    selectMax labels (m, ob) = (m, ob) := by
  induction labels with
  | nil => rfl
  | cons l rest ih =>
    unfold selectMax
    rw [if_neg (not_lt.mpr (h l (by simp)))]
    exact ih (fun l' hl' => h l' (by simp [hl']))

theorem selectMax_spec :
    ∀ (labels : List Label) (m : Int) (ob : Option Label),
      (∃ l ∈ labels, m < l.version) →
      ∃ i : Fin labels.length,
        (selectMax labels (m, ob)).2 = some (labels.get i) ∧
        m < (labels.get i).version ∧
        (∀ l ∈ labels, l.version ≤ (labels.get i).version) ∧
        (∀ j : Fin labels.length, (j : Nat) < (i : Nat) →
          (labels.get j).version < (labels.get i).version) := by
  intro labels
  induction labels with
  | nil => rintro m ob ⟨l, hl, _⟩; simp at hl
  | cons l rest ih =>
    intro m ob hex
    by_cases hm : m < l.version
    · by_cases hrest : ∃ l' ∈ rest, l.version < l'.version
      · obtain ⟨i', h1, h2, h3, h4⟩ := ih l.version (some l) hrest
        refine ⟨⟨(i' : Nat) + 1, by simp⟩, ?_, ?_, ?_, ?_⟩
        · unfold selectMax
          rw [if_pos hm]
          simpa using h1
        · exact lt_trans hm (by simpa using h2)
        · intro l' hl'
          rcases List.mem_cons.mp hl' with rfl | hl'
          · exact le_of_lt (by simpa using h2)
          · simpa using h3 l' hl'
        · rintro ⟨j, hj⟩ hji
          cases j with
          | zero => simpa using h2
          | succ j' =>
            have hj' : j' < rest.length := by simpa using hj
            have := h4 ⟨j', hj'⟩ (by simpa using hji)
            simpa using this
      · push_neg at hrest
        refine ⟨⟨0, by simp⟩, ?_, by simpa using hm, ?_, ?_⟩
        · unfold selectMax
          rw [if_pos hm]
          rw [selectMax_le rest l.version (some l) hrest]
          simp
        · intro l' hl'
          rcases List.mem_cons.mp hl' with rfl | hl'
          · simp
          · simpa using hrest l' hl'
        · rintro ⟨j, hj⟩ hji
          simp at hji
    · have hex' : ∃ l' ∈ rest, m < l'.version := by
        obtain ⟨l0, hl0, hv0⟩ := hex
        rcases List.mem_cons.mp hl0 with rfl | hl0
        · exact absurd hv0 hm
        · exact ⟨l0, hl0, hv0⟩
      obtain ⟨i', h1, h2, h3, h4⟩ := ih m ob hex'
      have hle : l.version ≤ m := not_lt.mp hm
      refine ⟨⟨(i' : Nat) + 1, by simp⟩, ?_, by simpa using h2, ?_, ?_⟩
      · unfold selectMax
        rw [if_neg hm]
        simpa using h1
      · intro l' hl'
        rcases List.mem_cons.mp hl' with rfl | hl'
        · exact le_of_lt (lt_of_le_of_lt hle (by simpa using h2))
        · simpa using h3 l' hl'
      · rintro ⟨j, hj⟩ hji
        cases j with
        | zero => simpa using lt_of_le_of_lt hle (by simpa using h2)
        | succ j' =>
          have hj' : j' < rest.length := by simpa using hj
          have := h4 ⟨j', hj'⟩ (by simpa using hji)
          simpa using this

/-- Claim C5: when no template version is requested, the Find-Template
step selects from the returned label set the first-seen label of maximum
integer version: the selected label's version dominates every returned
label, every earlier label has a strictly smaller version (so the
first-seen label wins among duplicates of the maximum), and the step
stores that label and continues. -/
theorem findLabel_maxVersion (cfg : Config) (env : Env) (st : BagState)
    (labels : List Label)
    (hv : cfg.labelVersion = "") (hl : env.labelsResult = .ok labels)
    (hpos : ∃ l ∈ labels, 0 ≤ l.version) :
    ∃ i : Fin labels.length,
      findMaxLabel labels = some (labels.get i) ∧
      (∀ l ∈ labels, l.version ≤ (labels.get i).version) ∧
      (∀ j : Fin labels.length, (j : Nat) < (i : Nat) →
        (labels.get j).version < (labels.get i).version) ∧
      ((labels.get i).definitions ≠ [] →
        stepFindLabelRun cfg env st
          = ({ st with selectedLabel := some (labels.get i) },
             .actionContinue)) := by
  have hex : ∃ l ∈ labels, (-1 : Int) < l.version := by
    obtain ⟨l, hl', hv'⟩ := hpos
    exact ⟨l, hl', by omega⟩
  obtain ⟨i, h1, _h2, h3, h4⟩ := selectMax_spec labels (-1) none hex
  have hne : labels.length ≠ 0 := by
    obtain ⟨l, hl', _⟩ := hex
    exact List.ne_nil_of_mem hl' ∘ List.eq_nil_of_length_eq_zero
  refine ⟨i, h1, h3, h4, fun hdefs => ?_⟩
  unfold stepFindLabelRun
  rw [hl]
  simp only [hne, if_false, hv, if_true, reduceIte]
  rw [show findMaxLabel labels = some (labels.get i) from h1]
  unfold finishLabel
  dsimp only
  rw [if_neg (by simpa [List.length_eq_zero] using hdefs)]

/-- A neutral, fully successful oracle environment used by the concrete
witness runs. -/
def envBase : Env :=
  { connectResult := .ok ()
    labelsResult := .ok []
    createAppResult := .ok ⟨"app1"⟩
    pollEvents := []
    accessResult := .ok ⟨"h:2222", "u", "p", "k"⟩
    connectSSHOutcome := .extContinue
    provisionOutcome := .extContinue
    createTaskResult := .ok "task1"
    imageEvents := []
    deallocResult := .ok ()
    cleanupEvents := []
    buildTime := "2025-01-01T00:00:00Z" }

/-- The label set of the spec's version-selection example: versions
{1, 3, 2} under the same name. -/
def labelsW : List Label :=
  [⟨"u1", "test", 1, [⟨"d"⟩]⟩, ⟨"u3", "test", 3, [⟨"d"⟩]⟩,
   ⟨"u2", "test", 2, [⟨"d"⟩]⟩]

/-- A configuration requesting no particular label version. -/
def cfgLatest : Config := ⟨"test", "", 60, [], "dh", 22⟩

/-- Concrete instantiation of the C5 selection theorem: on versions
{1, 3, 2} the selected label is the one with version 3. -/
theorem findLabel_maxVersion_witness :
    findMaxLabel labelsW = some ⟨"u3", "test", 3, [⟨"d"⟩]⟩ ∧
    ∃ i : Fin labelsW.length,
      findMaxLabel labelsW = some (labelsW.get i) ∧
      (∀ l ∈ labelsW, l.version ≤ (labelsW.get i).version) ∧
      (∀ j : Fin labelsW.length, (j : Nat) < (i : Nat) →
        (labelsW.get j).version < (labelsW.get i).version) ∧
      ((labelsW.get i).definitions ≠ [] →
        stepFindLabelRun cfgLatest { envBase with labelsResult := .ok labelsW }
            initialBag
          = ({ initialBag with selectedLabel := some (labelsW.get i) },
             .actionContinue)) :=
  ⟨rfl, findLabel_maxVersion cfgLatest _ initialBag labelsW rfl rfl (by decide)⟩

/-- Claim C6: when a version string is requested, the Find-Template step
parses it as an integer and requires an exact match among the returned
labels: a non-numeric version string halts with the configuration error
"invalid version format"; a numeric version with no matching label halts
with "label version not found" (and a version-filtered query that
returns no labels at all halts with "label not found").  In every
failing case the state's `selectedLabel` slot is unchanged — no label is
selected. -/
theorem findLabel_exactVersion (cfg : Config) (env : Env) (st : BagState)
    (labels : List Label) (hv : cfg.labelVersion ≠ "")
    (hl : env.labelsResult = .ok labels) :
    (labels = [] →
      stepFindLabelRun cfg env st
        = ({ st with error := some ("label not found: " ++ cfg.labelName) },
           .actionHalt)) ∧
    (labels ≠ [] → goAtoi cfg.labelVersion = none →
      stepFindLabelRun cfg env st
        = ({ st with error := some "invalid version format" }, .actionHalt)) ∧
    (∀ v, labels ≠ [] → goAtoi cfg.labelVersion = some v →
      (∀ l ∈ labels, l.version ≠ v) →
      stepFindLabelRun cfg env st
        = ({ st with error := some "label version not found" }, .actionHalt)) := by
  refine ⟨?_, ?_, ?_⟩
  · rintro rfl
    unfold stepFindLabelRun
    rw [hl]
    simp
  · intro hne ha
    unfold stepFindLabelRun
    rw [hl]
    dsimp only
    rw [if_neg (by simpa [List.length_eq_zero] using hne), if_neg hv, ha]
  · intro v hne ha hnomatch
    have hfind : labels.find? (fun l => l.version == v) = none := by
      rw [List.find?_eq_none]
      intro x hx
      simpa using hnomatch x hx
    unfold stepFindLabelRun
    rw [hl]
    dsimp only
    rw [if_neg (by simpa [List.length_eq_zero] using hne), if_neg hv, ha]
    dsimp only
    rw [hfind]

/-- Concrete instantiation of the C6 exact-match theorem: on versions
{1, 3, 2}, the non-numeric request "abc" is a configuration error and
the numeric request "9" is a not-found error. -/
theorem findLabel_exactVersion_witness :
    stepFindLabelRun ⟨"test", "abc", 60, [], "dh", 22⟩
        { envBase with labelsResult := .ok labelsW } initialBag
      = ({ initialBag with error := some "invalid version format" },
         .actionHalt) ∧
    stepFindLabelRun ⟨"test", "9", 60, [], "dh", 22⟩
        { envBase with labelsResult := .ok labelsW } initialBag
      = ({ initialBag with error := some "label version not found" },
         .actionHalt) :=
  ⟨(findLabel_exactVersion ⟨"test", "abc", 60, [], "dh", 22⟩ _ initialBag labelsW
      (by decide) rfl).2.1 (by decide) (by decide),
   (findLabel_exactVersion ⟨"test", "9", 60, [], "dh", 22⟩ _ initialBag labelsW
      (by decide) rfl).2.2 9 (by decide) (by decide) (by decide)⟩

/-- Claim C8: every remote-access address that does not consist of
exactly two colon-separated fields is rejected by `ParseSSHAddress`, and
the Setup-Remote-Access step then falls back to the operator-configured
default SSH host and port, publishes them, and continues without failing
the workflow. -/
theorem sshAddress_fallback (addr : String)
    (hsplit : (goSplitColon addr).length ≠ 2)
    (cfg : Config) (env : Env) (st : BagState) (access : Access)
    (ha : env.accessResult = .ok access) (haddr : access.address = addr) :
    ParseSSHAddress addr = .error ("invalid SSH address format: " ++ addr) ∧
    stepSetupSSHRun cfg env st
      = ({ st with
             sshHost := some cfg.sshHostDefault,
             sshPort := some cfg.sshPortDefault,
             generatedData :=
               mapInsert "SSHPort" (intToString cfg.sshPortDefault)
                 (mapInsert "SSHHost" cfg.sshHostDefault st.generatedData) },
         .actionContinue) := by
  have hp : ParseSSHAddress addr
      = .error ("invalid SSH address format: " ++ addr) := by
    unfold ParseSSHAddress
    rw [dif_neg hsplit]
  refine ⟨hp, ?_⟩
  unfold stepSetupSSHRun
  rw [ha]
  dsimp only
  rw [haddr, hp]

/-- Concrete instantiation of the C8 fallback theorem at the spec's
example address. -/
theorem sshAddress_fallback_witness :
    stepSetupSSHRun cfgLatest
        { envBase with accessResult := .ok ⟨"not-an-address", "u", "p", "k"⟩ }
        initialBag
      = ({ initialBag with
             sshHost := some "dh",
             sshPort := some 22,
             generatedData :=
               mapInsert "SSHPort" (intToString 22)
                 (mapInsert "SSHHost" "dh" initialBag.generatedData) },
         .actionContinue) :=
  (sshAddress_fallback "not-an-address" (by decide) cfgLatest
    { envBase with accessResult := .ok ⟨"not-an-address", "u", "p", "k"⟩ }
    initialBag ⟨"not-an-address", "u", "p", "k"⟩ rfl rfl).2

theorem mlookup_eq_none_of_not_mem (k : String) (l : List (String × String))
    (h : k ∉ l.map Prod.fst) : mlookup k l = none := by
  induction l with
  | nil => rfl
  | cons hd tl ih =>
    obtain ⟨k0, v0⟩ := hd
    simp only [List.map_cons, List.mem_cons, not_or] at h
    simp [mlookup, h.1, ih h.2]

theorem mlookup_copy (l : List (String × String)) (k : String) :
    ∀ acc, (l.map Prod.fst).Nodup →
      mlookup k (l.foldl (fun m kv => mapInsert kv.1 kv.2 m) acc)
        = (match mlookup k l with
           | some v => some v
           | none => mlookup k acc) := by
  induction l with
  | nil => intro acc _; rfl
  | cons hd tl ih =>
    intro acc hnd
    obtain ⟨k0, v0⟩ := hd
    simp only [List.map_cons, List.nodup_cons] at hnd
    simp only [List.foldl_cons]
    rw [ih (mapInsert k0 v0 acc) hnd.2]
    by_cases hk : k = k0
    · subst hk
      rw [mlookup_eq_none_of_not_mem k tl hnd.1]
      simp [mlookup, mlookup_mapInsert]
    · rcases htl : mlookup k tl with _ | v
      · simp [mlookup, hk, htl, mlookup_mapInsert]
      · simp [mlookup, hk, htl]

/-- Claim C10: for every user-supplied `application_metadata` map, the
metadata submitted with the created Application carries
`PACKER_BUILD = "true"`, `PACKER_BUILDER = "aquarium"` and
`PACKER_BUILD_TIME` (the RFC3339-formatted build timestamp taken from
the environment); these three workflow-injected entries overwrite any
user-supplied entries under the same keys, while user entries under all
other keys pass through unchanged. -/
theorem applicationMetadata_injection (userMeta : List (String × String))
    (buildTime : String) (hnd : (userMeta.map Prod.fst).Nodup) :
    mlookup "PACKER_BUILD" (buildMetadata userMeta buildTime) = some "true" ∧
    mlookup "PACKER_BUILDER" (buildMetadata userMeta buildTime)
      = some "aquarium" ∧
    mlookup "PACKER_BUILD_TIME" (buildMetadata userMeta buildTime)
      = some buildTime ∧
    (∀ k, k ≠ "PACKER_BUILD" → k ≠ "PACKER_BUILDER" →
      k ≠ "PACKER_BUILD_TIME" →
      mlookup k (buildMetadata userMeta buildTime) = mlookup k userMeta) := by
  unfold buildMetadata
  refine ⟨?_, ?_, ?_, ?_⟩
  · simp [mlookup_mapInsert]
  · simp [mlookup_mapInsert]
  · simp [mlookup_mapInsert]
  · intro k h1 h2 h3
    rw [mlookup_mapInsert, if_neg h3, mlookup_mapInsert, if_neg h2,
        mlookup_mapInsert, if_neg h1, mlookup_copy userMeta k [] hnd]
    cases mlookup k userMeta <;> rfl

/-- Concrete instantiation of the C10 metadata theorem: a user map that
tries to override `PACKER_BUILD` is overwritten, while its other key
passes through. -/
theorem applicationMetadata_injection_witness :
    mlookup "PACKER_BUILD"
        (buildMetadata [("PACKER_BUILD", "false"), ("custom", "v")] "T0")
      = some "true" ∧
    mlookup "custom"
        (buildMetadata [("PACKER_BUILD", "false"), ("custom", "v")] "T0")
      = some "v" :=
  ⟨(applicationMetadata_injection [("PACKER_BUILD", "false"), ("custom", "v")]
      "T0" (by decide)).1,
   by
     rw [(applicationMetadata_injection [("PACKER_BUILD", "false"), ("custom", "v")]
        "T0" (by decide)).2.2.2 "custom" (by decide) (by decide) (by decide)]
     rfl⟩

theorem runForward_tail_connectErr (cfg : Config) (env : Env) (m : String)
    (hc : env.connectResult = .error m) :
    (runForward (builderTail cfg env) initialBag).1
      = { initialBag with error := some m } := by
  unfold builderTail
  rw [runForward_cons]
  dsimp only
  have hcr : stepConnectRun env initialBag
      = ({ initialBag with error := some m }, .actionHalt) := by
    unfold stepConnectRun
    rw [hc]
  rw [hcr]

theorem runForward_tail_hasClient (cfg : Config) (env : Env) (u : Unit)
    (hc : env.connectResult = .ok u) :
    (runForward (builderTail cfg env) initialBag).1.hasApiClient = true := by
  unfold builderTail
  rw [runForward_cons]
  dsimp only
  have hcr : stepConnectRun env initialBag
      = ({ initialBag with hasApiClient := true }, .actionContinue) := by
    unfold stepConnectRun
    rw [hc]
  rw [hcr]
  dsimp only
  refine runForward_preserve (fun st => st.hasApiClient = true) _ _ ?_ rfl
  intro s hs x hx
  simp at hs
  rcases hs with rfl | rfl | rfl | rfl | rfl | rfl | rfl
  · rcases stepFindLabelRun_cases cfg env x with ⟨m, h⟩ | ⟨sel, h⟩ <;>
      simp [h, hx]
  · rcases stepCreateApplicationRun_cases cfg env x with ⟨m, h⟩ | ⟨app, h⟩ <;>
      simp [h, hx]
  · rcases waitLoop_cases env.pollEvents x with ⟨m, h⟩ | ⟨r, h⟩ <;> simp [h, hx]
  · rcases stepSetupSSHRun_cases cfg env x with ⟨m, h⟩ | ⟨host, port, h⟩ <;>
      simp [h, hx]
  · rcases extStepRun_cases env.connectSSHOutcome x with h | h | ⟨m, h⟩ <;>
      simp [h, hx]
  · rcases extStepRun_cases env.provisionOutcome x with h | h | ⟨m, h⟩ <;>
      simp [h, hx]
  · rcases stepCreateImageRun_cases env x with ⟨m, h⟩ | ⟨res, h⟩ <;> simp [h, hx]

/-- Claim C2: every workflow run issues exactly one deallocation request
for the created Allocation's id whenever an Application is present in
the final workflow state — regardless of which later step failed, since
this holds for every oracle environment — and issues none (and records
no error) when no Application (or no API client) is present; the cleanup
action itself never alters the recorded error. -/
theorem workflow_cleanup_invariant (cfg : Config) (env : Env) :
    (∀ app, (builderFinalState cfg env).application = some app →
      (builderFinalState cfg env).deallocCalls = [app.uid]) ∧
    ((builderFinalState cfg env).application = none →
      (builderFinalState cfg env).deallocCalls = []) ∧
    (∀ st, (stepCleanupCleanup env st).error = st.error) := by
  have herr : ∀ st, (stepCleanupCleanup env st).error = st.error := by
    intro st
    obtain ⟨calls, hcl⟩ := stepCleanupCleanup_frame env st
    rw [hcl]
  have hfe := builderFinalState_eq cfg env
  obtain ⟨calls, hframe⟩ :=
    stepCleanupCleanup_frame env (runForward (builderTail cfg env) initialBag).1
  have hcalls : (runForward (builderTail cfg env) initialBag).1.deallocCalls
      = [] := by
    refine runForward_preserve (fun st => st.deallocCalls = []) _ _ ?_ rfl
    intro s hs x hx
    unfold builderTail at hs
    simp at hs
    rcases hs with rfl | rfl | rfl | rfl | rfl | rfl | rfl | rfl
    · rcases stepConnectRun_cases env x with ⟨m, h⟩ | h <;> simp [h, hx]
    · rcases stepFindLabelRun_cases cfg env x with ⟨m, h⟩ | ⟨sel, h⟩ <;>
        simp [h, hx]
    · rcases stepCreateApplicationRun_cases cfg env x with ⟨m, h⟩ | ⟨app, h⟩ <;>
        simp [h, hx]
    · rcases waitLoop_cases env.pollEvents x with ⟨m, h⟩ | ⟨r, h⟩ <;> simp [h, hx]
    · rcases stepSetupSSHRun_cases cfg env x with ⟨m, h⟩ | ⟨host, port, h⟩ <;>
        simp [h, hx]
    · rcases extStepRun_cases env.connectSSHOutcome x with h | h | ⟨m, h⟩ <;>
        simp [h, hx]
    · rcases extStepRun_cases env.provisionOutcome x with h | h | ⟨m, h⟩ <;>
        simp [h, hx]
    · rcases stepCreateImageRun_cases env x with ⟨m, h⟩ | ⟨res, h⟩ <;> simp [h, hx]
  refine ⟨?_, ?_, herr⟩
  · intro app hap
    have hfapp : (runForward (builderTail cfg env) initialBag).1.application
        = some app := by
      rw [hfe, hframe] at hap
      simpa using hap
    have hclient : (runForward (builderTail cfg env) initialBag).1.hasApiClient
        = true := by
      rcases hc : env.connectResult with m | u
      · rw [runForward_tail_connectErr cfg env m hc] at hfapp
        simp [initialBag] at hfapp
      · exact runForward_tail_hasClient cfg env u hc
    rw [hfe, stepCleanupCleanup_dealloc env _ app hclient hfapp]
    simp [hcalls]
  · intro hap
    have hfapp : (runForward (builderTail cfg env) initialBag).1.application
        = none := by
      rw [hfe, hframe] at hap
      simpa using hap
    rw [hfe, stepCleanupCleanup_skip env _ (.inr hfapp)]
    exact hcalls

/-- An oracle environment for a fully successful workflow run. -/
def envRunOk : Env :=
  { envBase with
      labelsResult := .ok labelsW
      pollEvents := [.stateOk ⟨.ALLOCATED, ""⟩ (.fetchSome ⟨"res1", "ip"⟩)]
      imageEvents := [.taskOk [("status", "success")]] }

/-- Concrete instantiation of the C2 cleanup-invariant theorem: a
successful run that created application "app1" issues exactly the one
deallocation request ["app1"]. -/
theorem workflow_cleanup_invariant_witness :
    (builderFinalState cfgLatest envRunOk).application = some ⟨"app1"⟩ ∧
    (builderFinalState cfgLatest envRunOk).deallocCalls = ["app1"] :=
  ⟨by decide,
   (workflow_cleanup_invariant cfgLatest envRunOk).1 ⟨"app1"⟩ (by decide)⟩

theorem runForward_tail_success (cfg : Config) (env : Env) :
    (runForward (builderTail cfg env) initialBag).1.error = none →
    ∃ app r host port,
      (runForward (builderTail cfg env) initialBag).1.generatedData
        = [("ApplicationUID", Application.uid app),
           ("ResourceUID", Resource.uid r),
           ("SSHHost", host), ("SSHPort", intToString port)] ∧
      (runForward (builderTail cfg env) initialBag).1.application = some app ∧
      (runForward (builderTail cfg env) initialBag).1.resource = some r ∧
      (runForward (builderTail cfg env) initialBag).1.sshHost = some host ∧
      (runForward (builderTail cfg env) initialBag).1.sshPort = some port := by
  unfold builderTail
  rw [runForward_cons]
  dsimp only
  rcases stepConnectRun_cases env initialBag with ⟨m, hc1⟩ | hc1 <;>
    rw [hc1] <;> dsimp only
  · intro h
    simp at h
  rw [runForward_cons]
  dsimp only
  rcases stepFindLabelRun_cases cfg env _ with ⟨m, hc2⟩ | ⟨sel, hc2⟩ <;>
    rw [hc2] <;> dsimp only
  · intro h
    simp at h
  rw [runForward_cons]
  dsimp only
  rcases stepCreateApplicationRun_cases cfg env _ with ⟨m, hc3⟩ | ⟨app, hc3⟩ <;>
    rw [hc3] <;> dsimp only
  · intro h
    simp at h
  rw [runForward_cons]
  dsimp only
  rcases waitLoop_cases env.pollEvents _ with ⟨m, hc4⟩ | ⟨r, hc4⟩ <;>
    rw [hc4] <;> dsimp only
  · intro h
    simp at h
  rw [runForward_cons]
  dsimp only
  rcases stepSetupSSHRun_cases cfg env _ with ⟨m, hc5⟩ | ⟨host, port, hc5⟩ <;>
    rw [hc5] <;> dsimp only
  · intro h
    simp at h
  rw [runForward_cons]
  dsimp only
  rcases extStepRun_cases env.connectSSHOutcome _ with hc6 | hc6 | ⟨m, hc6⟩
  · rw [hc6]
    dsimp only
    rw [runForward_cons]
    dsimp only
    rcases extStepRun_cases env.provisionOutcome _ with hc7 | hc7 | ⟨m, hc7⟩
    · rw [hc7]
      dsimp only
      rw [runForward_cons]
      dsimp only
      rcases stepCreateImageRun_cases env _ with ⟨m, hc8⟩ | ⟨res, hc8⟩ <;>
        rw [hc8] <;> dsimp only
      · intro h
        simp at h
      · exact fun _ => ⟨app, r, host, port,
          by simp [runForward, initialBag, mapInsert],
          by simp [runForward], by simp [runForward],
          by simp [runForward], by simp [runForward]⟩
    · rw [hc7]
      dsimp only
      exact fun _ => ⟨app, r, host, port,
        by simp [runForward, initialBag, mapInsert],
        by simp [runForward], by simp [runForward],
        by simp [runForward], by simp [runForward]⟩
    · rw [hc7]
      dsimp only
      intro h
      simp at h
  · rw [hc6]
    dsimp only
    exact fun _ => ⟨app, r, host, port,
      by simp [runForward, initialBag, mapInsert],
      by simp [runForward], by simp [runForward],
      by simp [runForward], by simp [runForward]⟩
  · rw [hc6]
    dsimp only
    intro h
    simp at h

/-- Claim C7 (counterexample): a successful workflow run can publish an
empty SSHHost value: the access address ":22" splits into exactly two
fields and parses successfully into host "" and port 22, so the run
succeeds and the artifact's SSHHost value is the empty string — the four
values are not all non-empty. -/
theorem artifact_empty_host :
    builderRun cfgLatest { envRunOk with accessResult := .ok ⟨":22", "u", "p", "k"⟩ }
      = .ok [("ApplicationUID", "app1"), ("ResourceUID", "res1"),
             ("SSHHost", ""), ("SSHPort", "22")] := rfl

/-- Claim C7 (amended): for every successful workflow run the artifact's
generated-data map contains exactly the four keys ApplicationUID,
ResourceUID, SSHHost and SSHPort (in insertion order); the SSHPort value
(the printed resolved port) is always non-empty, while the other three
values are exactly the created application's uid, the resource's uid and
the resolved SSH host held in the final workflow state — non-empty
exactly when the fleet service and configuration supply non-empty
values. -/
theorem artifact_shape (cfg : Config) (env : Env)
    (gd : List (String × String)) (h : builderRun cfg env = .ok gd) :
    ∃ app r host port,
      gd = [("ApplicationUID", Application.uid app),
            ("ResourceUID", Resource.uid r),
            ("SSHHost", host), ("SSHPort", intToString port)] ∧
      (builderFinalState cfg env).application = some app ∧
      (builderFinalState cfg env).resource = some r ∧
      (builderFinalState cfg env).sshHost = some host ∧
      (builderFinalState cfg env).sshPort = some port ∧
      intToString port ≠ "" := by
  have hfe := builderFinalState_eq cfg env
  obtain ⟨calls, hframe⟩ :=
    stepCleanupCleanup_frame env (runForward (builderTail cfg env) initialBag).1
  unfold builderRun at h
  rw [hfe, hframe] at h
  dsimp only at h
  rcases he : (runForward (builderTail cfg env) initialBag).1.error with _ | e
  · rw [he] at h
    dsimp only at h
    obtain ⟨app, r, host, port, hgd, happ, hres, hhost, hport⟩ :=
      runForward_tail_success cfg env he
    refine ⟨app, r, host, port, ?_, ?_, ?_, ?_, ?_, intToString_ne_empty port⟩
    · rw [← hgd]
      exact ((Except.ok.injEq _ _).mp h).symm
    · rw [hfe, hframe]
      simpa using happ
    · rw [hfe, hframe]
      simpa using hres
    · rw [hfe, hframe]
      simpa using hhost
    · rw [hfe, hframe]
      simpa using hport
  · rw [he] at h
    dsimp only at h
    cases h

/-- Concrete instantiation of the C7 artifact-shape theorem on a fully
successful run. -/
theorem artifact_shape_witness :
    ∃ app r host port,
      [("ApplicationUID", "app1"), ("ResourceUID", "res1"),
       ("SSHHost", "h"), ("SSHPort", "2222")]
        = [("ApplicationUID", Application.uid app),
           ("ResourceUID", Resource.uid r),
           ("SSHHost", host), ("SSHPort", intToString port)] ∧
      (builderFinalState cfgLatest envRunOk).application = some app ∧
      (builderFinalState cfgLatest envRunOk).resource = some r ∧
      (builderFinalState cfgLatest envRunOk).sshHost = some host ∧
      (builderFinalState cfgLatest envRunOk).sshPort = some port ∧
      intToString port ≠ "" :=
  artifact_shape cfgLatest envRunOk
    [("ApplicationUID", "app1"), ("ResourceUID", "res1"),
     ("SSHHost", "h"), ("SSHPort", "2222")] rfl

end Aquarium
